import Mathlib

/-!
Verification development for an HTTP reverse-proxy load balancer with
per-client token-bucket rate limiting.

The Go sources are shallowly embedded: machine `int64` values are modelled as
unbounded `Int` (no claim here depends on 64-bit wraparound), `float64`
timestamps, durations and rates are modelled as exact rational seconds, and the
mutex/atomic protected state is threaded explicitly, so every operation is a
pure function from state to state.  Fallible constructors (`return nil`) become
`Option`-valued functions.
-/

namespace LoadBalancer

/-- Semantics of Go's `float64` → `int64` conversion: truncation toward zero
(`int64(tokensToAdd)` in `Bucket.refill`).  For non-negative arguments this is
the floor. -/
def truncQ (q : ℚ) : Int := if 0 ≤ q then ⌊q⌋ else ⌈q⌉

/-- One token bucket (`type Bucket` in the ratelimiter package).  `capacity`
and `tokens` are Go `int64` fields; `refillRate` is tokens per second;
`lastRefill` and `lastAccess` are timestamps in seconds.  The per-bucket mutex
is elided: the embedding is sequential. -/
structure Bucket where
  capacity : Int
  tokens : Int
  refillRate : ℚ
  lastRefill : ℚ
  lastAccess : ℚ
deriving Repr, DecidableEq

/-- `NewBucket(capacity, rate)`: rejects non-positive capacity or rate
(returns `nil`, here `none`); otherwise starts full with both timestamps at
`now` (`time.Now()` is passed explicitly). -/
def NewBucket (capacity : Int) (rate : ℚ) (now : ℚ) : Option Bucket :=
  if capacity ≤ 0 ∨ rate ≤ 0 then none
  else some { capacity := capacity, tokens := capacity, refillRate := rate,
              lastRefill := now, lastAccess := now }

/-- `(*Bucket).refill()`: if no time elapsed since `lastRefill`, do nothing;
otherwise add `int64(elapsedSeconds * refillRate)` tokens, cap at `capacity`,
and set `lastRefill` to `now`. -/
def Bucket.refill (b : Bucket) (now : ℚ) : Bucket :=
  let duration := now - b.lastRefill
  if duration ≤ 0 then b
  else
    let tokensToAdd := duration * b.refillRate
    let t1 := b.tokens + truncQ tokensToAdd
    let t2 := if t1 > b.capacity then b.capacity else t1
    { b with tokens := t2, lastRefill := now }

/-- `(*Bucket).Allow()`: refill, then take one token if at least one is
available, stamping `lastAccess`; returns whether the request is admitted,
together with the updated bucket. -/
def Bucket.Allow (b : Bucket) (now : ℚ) : Bool × Bucket :=
  let br := b.refill now
  if 1 ≤ br.tokens then
    (true, { br with tokens := br.tokens - 1, lastAccess := now })
  else
    (false, br)

/-- `(*Bucket).IsInactive(threshold)`: true iff more than `threshold` seconds
passed since the last successful take. -/
def Bucket.IsInactive (b : Bucket) (now threshold : ℚ) : Bool :=
  decide (threshold < now - b.lastAccess)

/-- State after a sequence of `Allow` calls at the given times. -/
def allowSeq (b : Bucket) (ts : List ℚ) : Bucket :=
  ts.foldl (fun s t => (s.Allow t).2) b

/-- Number of admitted requests among `n` consecutive `Allow` calls all made
at the same instant `now`. -/
def countAllow (b : Bucket) (now : ℚ) : Nat → Nat
  | 0 => 0
  | n + 1 =>
    let r := b.Allow now
    (if r.1 then 1 else 0) + countAllow r.2 now n

/-- The list of results of `Allow` calls at the given times, threading the
bucket state. -/
def allowResults (b : Bucket) : List ℚ → List Bool
  | [] => []
  | t :: ts =>
    let r := b.Allow t
    r.1 :: allowResults r.2 ts

/-- `gapsOK r last ts` holds when each time in `ts` is separated from its
predecessor (initially `last`) by strictly less than `1 / r` seconds. -/
def gapsOK (r : ℚ) : ℚ → List ℚ → Bool
  | _, [] => true
  | last, t :: ts => decide (t - last < 1 / r) && gapsOK r t ts

/-- The documented bucket invariant: `0 ≤ tokens ≤ capacity`. -/
def Bucket.Inv (b : Bucket) : Prop := 0 ≤ b.tokens ∧ b.tokens ≤ b.capacity

instance (b : Bucket) : Decidable b.Inv := by unfold Bucket.Inv; infer_instance

/-! ## Backend pool and round-robin peer selection (balancer package) -/

/-- One upstream (`type Backend`): URL and liveness flag.  The reverse-proxy
engine itself is external I/O and is not part of the state. -/
structure Backend where
  url : String
  Alive : Bool
deriving Repr, DecidableEq

/-- Modelled from the spec: the file defining `(*Backend).IsAlive` is not among
the provided sources (only its callers are).  Per the spec, the `Alive` flag is
read atomically with no other effect. -/
def Backend.IsAlive (b : Backend) : Bool := b.Alive

/-- Modelled from the spec: the file defining `(*Backend).SetAlive` is not
among the provided sources (only its callers are).  Per the spec, the `Alive`
flag is written atomically with no other effect. -/
def Backend.SetAlive (b : Backend) (alive : Bool) : Backend := { b with Alive := alive }

/-- A dead placeholder standing for Go's out-of-range panic; every index the
scan produces is `< backends.length`, so it is never consulted. -/
def deadBackend : Backend := { url := "", Alive := false }

/-- `type ServerPool`: the fixed backend sequence and the atomic round-robin
cursor (`current`).  Health-check timing parameters are omitted: no claim
concerns them. -/
structure ServerPool where
  backends : List Backend
  current : Nat
deriving Repr, DecidableEq

/-- The scan loop inside `GetNextPeer` (`for i := 0; i < n; i++`): probe
position `(c + 1 + i) % n` and return the first one holding an alive backend.
`left` is the number of loop iterations still allowed — callers pass
`left = n - i`, so `left > 0` is exactly the Go guard `i < n`. -/
def scanAlive (bs : List Backend) (c n : Nat) : Nat → Nat → Option Nat
  | _, 0 => none
  | i, left + 1 =>
    let nextIdx := (c + 1 + i) % n
    if (bs.getD nextIdx deadBackend).IsAlive then some nextIdx
    else scanAlive bs c n (i + 1) left

/-- `(*ServerPool).GetNextPeer()`: empty pool yields no peer; otherwise scan
`n` positions starting right after the cursor, store the index of the first
alive backend into the cursor and return that backend; if none is alive,
return no peer.  The returned pool carries the (possibly updated) cursor. -/
def ServerPool.GetNextPeer (s : ServerPool) : Option Backend × ServerPool :=
  let numBackends := s.backends.length
  if numBackends = 0 then (none, s)
  else
    match scanAlive s.backends s.current numBackends 0 numBackends with
    | some idx => (some (s.backends.getD idx deadBackend), { s with current := idx })
    | none => (none, s)

/-! ## Error responses (httputil package and Go's `http.Error`) -/

/-- An HTTP response as far as the claims are concerned: status code, the
`Content-Type` header and the body. -/
structure Response where
  status : Nat
  contentType : String
  body : String
deriving Repr, DecidableEq

/-- The JSON serialization of `httputil.APIError` (Go `encoding/json` of the
struct with `code` and `message` tags; the messages used in this program need
no escaping). -/
def encodeAPIError (code : Nat) (message : String) : String :=
  "\x7b\"code\":" ++ toString code ++ ",\"message\":\"" ++ message ++ "\"\x7d"

/-- `httputil.RespondWithError`: JSON content type, the requested status, and
the encoded `APIError`; `json.Encoder.Encode` appends a newline. -/
def RespondWithError (code : Nat) (message : String) : Response :=
  { status := code, contentType := "application/json; charset=utf-8",
    body := encodeAPIError code message ++ "\n" }

/-- Semantics of Go's standard `http.Error` helper (used by the proxy error
handler instead of `RespondWithError`): plain-text content type and the
message followed by a newline. -/
def httpError (msg : String) (code : Nat) : Response :=
  { status := code, contentType := "text/plain; charset=utf-8", body := msg ++ "\n" }

/-- The `proxy.ErrorHandler` closure installed by `NewServerPool`: read the
retry count from the request context (`GetRetryFromContext`, 0 when absent);
on the first attempt demote the backend (`SetAlive(false)`), otherwise only
log; in every case answer with Go's `http.Error` at status 502. -/
def proxyErrorHandler (b : Backend) (retryCount : Nat) : Backend × Response :=
  (if retryCount < 1 then b.SetAlive false else b,
   httpError "Bad Gateway: Error connecting to backend" 502)

/-! ## Dispatcher (`NewLoadBalancerHandler`) -/

/-- Outcome of handling one request: forwarded to a peer with the retry count
attached to the request context, refused with 503, or refused with 500 when
the pool has no backends at all. -/
inductive DispatchResult where
  | forwarded (peer : Backend) (retryCount : Nat)
  | unavailable (resp : Response)
  | misconfigured (resp : Response)
deriving Repr, DecidableEq

/-- The peer-selection loop of the dispatcher (`for attempts < maxAttempts`):
ask the pool for a peer; stop at the first success.  `remaining` is the number
of loop iterations still allowed — callers pass `maxAttempts - attempts`, so
`remaining > 0` is exactly the Go guard `attempts < maxAttempts`.  `calls`
counts the `GetNextPeer` invocations made (the 10 ms sleep between failed
attempts is a real-time effect with no bearing on the state).  Returns the
peer found (if any), the final `attempts` counter, the call count, and the
pool. -/
def dispatchLoop (s : ServerPool) (attempts calls : Nat) :
    Nat → Option Backend × Nat × Nat × ServerPool
  | 0 => (none, attempts, calls, s)
  | remaining + 1 =>
    match s.GetNextPeer with
    | (some peer, s') => (some peer, attempts, calls + 1, s')
    | (none, s') => dispatchLoop s' (attempts + 1) (calls + 1) remaining

/-- One request through the handler built by `NewLoadBalancerHandler`: a pool
with no backends answers 500; otherwise run the selection loop with
`maxAttempts = len(backends)`; with no peer answer 503, else attach
`retryCount = attempts` and hand off to the chosen peer.  Returns the outcome,
the number of peer-selection attempts made, and the final pool. -/
def loadBalancerHandler (s : ServerPool) : DispatchResult × Nat × ServerPool :=
  if s.backends.length = 0 then
    (.misconfigured (RespondWithError 500 "Load Balancer Configuration Error"), 0, s)
  else
    match dispatchLoop s 0 0 s.backends.length with
    | (some peer, attempts, calls, s') => (.forwarded peer attempts, calls, s')
    | (none, _, calls, s') =>
        (.unavailable (RespondWithError 503 "Service Unavailable: No backend servers available"),
         calls, s')

/-! ## BucketStore and Limiter (ratelimiter package) -/

/-- The `LimitProvider` capability as the store consumes it:
`GetLimit(clientID) → (capacity, rate, found)`. -/
def LimitProvider := String → Int × ℚ × Bool

/-- `type BucketStore`: the client → bucket map (modelled as an association
list), the default parameters and the optional provider.  The RW mutex is
elided: the embedding is sequential. -/
structure BucketStore where
  buckets : List (String × Bucket)
  defaultCapacity : Int
  defaultRefillRate : ℚ
  limitProvider : Option LimitProvider

/-- `NewBucketStore`: rejects non-positive defaults, otherwise starts with an
empty map. -/
def NewBucketStore (defaultCapacity : Int) (defaultRefillRate : ℚ)
    (provider : Option LimitProvider) : Option BucketStore :=
  if defaultCapacity ≤ 0 ∨ defaultRefillRate ≤ 0 then none
  else some { buckets := [], defaultCapacity := defaultCapacity,
              defaultRefillRate := defaultRefillRate, limitProvider := provider }

/-- The parameter-selection block at the top of `GetOrCreateBucket`'s creation
path: custom capacity and rate when the provider reports `found` with both
values positive (warn-and-default on a non-positive value), defaults when
`found = false` or no provider is configured. -/
def chooseParams (s : BucketStore) (clientID : String) : Int × ℚ :=
  match s.limitProvider with
  | some provider =>
    let r := provider clientID
    if r.2.2 then
      if 0 < r.1 ∧ 0 < r.2.1 then (r.1, r.2.1)
      else (s.defaultCapacity, s.defaultRefillRate)
    else (s.defaultCapacity, s.defaultRefillRate)
  | none => (s.defaultCapacity, s.defaultRefillRate)

/-- `(*BucketStore).GetOrCreateBucket(clientID)`: return the existing bucket
if present; otherwise pick parameters (custom ones when the provider reports
`found` with both values positive, defaults otherwise), build the bucket and
insert it.  A failing `NewBucket` (defensive check) yields no bucket and
leaves the store unchanged. -/
def GetOrCreateBucket (s : BucketStore) (clientID : String) (now : ℚ) :
    Option Bucket × BucketStore :=
  match s.buckets.lookup clientID with
  | some bucket => (some bucket, s)
  | none =>
    let params := chooseParams s clientID
    match NewBucket params.1 params.2 now with
    | none => (none, s)
    | some newBucket => (some newBucket, { s with buckets := (clientID, newBucket) :: s.buckets })

/-- `type Limiter`: the store and the reaper interval, in seconds.  The reaper
goroutine itself is out of the sequential state. -/
structure Limiter where
  store : BucketStore
  cleanupInterval : ℚ

/-- `NewLimiter(store, cleanupInterval)`: a nil store is rejected; a
non-positive interval is **not** — the code logs a warning and substitutes the
default 5 minutes (300 s). -/
def NewLimiter (store : Option BucketStore) (cleanupInterval : ℚ) : Option Limiter :=
  match store with
  | none => none
  | some st =>
    let ci := if cleanupInterval ≤ 0 then 300 else cleanupInterval
    some { store := st, cleanupInterval := ci }

/-! ## Client-identifier extraction (middleware.RateLimit) -/

/-- `strings.LastIndex(ip, ":")` over the character list: the greatest index
holding a colon, if any. -/
def lastColonIndex : List Char → Option Nat
  | [] => none
  | ch :: rest =>
    match lastColonIndex rest with
    | some j => some (j + 1)
    | none => if ch = ':' then some 0 else none

/-- The bracket-unwrapping step: if the string both starts with `[` and ends
with `]` (Go `strings.HasPrefix` / `strings.HasSuffix`), drop both. -/
def stripBrackets (s : String) : String :=
  if s.data.head? = some '[' ∧ s.data.getLast? = some ']' then
    ⟨(s.data.drop 1).dropLast⟩
  else s

/-- The client-identifier extraction in the rate-limit middleware: truncate at
the last colon when one exists (`ip = ip[:colonPos]`), then unwrap surrounding
brackets. -/
def extractClientID (addr : String) : String :=
  match lastColonIndex addr.data with
  | some i => stripBrackets ⟨addr.data.take i⟩
  | none => stripBrackets addr

/-! ## Bucket lemmas -/

theorem truncQ_of_nonneg {q : ℚ} (h : 0 ≤ q) : truncQ q = ⌊q⌋ := if_pos h

theorem truncQ_nonneg {q : ℚ} (h : 0 ≤ q) : 0 ≤ truncQ q := by
  rw [truncQ_of_nonneg h]
  exact Int.floor_nonneg.mpr h

theorem Bucket.refill_capacity (b : Bucket) (now : ℚ) :
    (b.refill now).capacity = b.capacity := by
  simp only [Bucket.refill]
  split <;> rfl

theorem Bucket.refill_refillRate (b : Bucket) (now : ℚ) :
    (b.refill now).refillRate = b.refillRate := by
  simp only [Bucket.refill]
  split <;> rfl

/-- Characterization of the bucket `Allow` returns: the refilled bucket, minus
one token with `lastAccess` stamped when at least one token is available. -/
theorem Bucket.allow_snd_eq (b : Bucket) (now : ℚ) :
    (b.Allow now).2 =
      if 1 ≤ (b.refill now).tokens then
        { b.refill now with tokens := (b.refill now).tokens - 1, lastAccess := now }
      else b.refill now := by
  simp only [Bucket.Allow]
  split <;> rfl

/-- `Allow` admits exactly when the refilled bucket has a token. -/
theorem Bucket.allow_fst_iff (b : Bucket) (now : ℚ) :
    (b.Allow now).1 = true ↔ 1 ≤ (b.refill now).tokens := by
  simp only [Bucket.Allow]
  split
  · rename_i h; simpa using h
  · rename_i h; simpa using h

theorem Bucket.allow_capacity (b : Bucket) (now : ℚ) :
    ((b.Allow now).2).capacity = b.capacity := by
  rw [b.allow_snd_eq now]
  split
  · exact b.refill_capacity now
  · exact b.refill_capacity now

theorem Bucket.allow_refillRate (b : Bucket) (now : ℚ) :
    ((b.Allow now).2).refillRate = b.refillRate := by
  rw [b.allow_snd_eq now]
  split
  · exact b.refill_refillRate now
  · exact b.refill_refillRate now

/-- Characterization of the token count after `refill`: unchanged when no time
elapsed, else the old count plus the truncated product, capped at capacity. -/
theorem Bucket.refill_tokens_eq (b : Bucket) (now : ℚ) :
    (b.refill now).tokens =
      if now - b.lastRefill ≤ 0 then b.tokens
      else min b.capacity (b.tokens + truncQ ((now - b.lastRefill) * b.refillRate)) := by
  simp only [Bucket.refill]
  split
  · rfl
  · simp only
    split <;> omega

/-- `refill` stamps `lastRefill = now` exactly when time elapsed. -/
theorem Bucket.refill_lastRefill_eq (b : Bucket) (now : ℚ) :
    (b.refill now).lastRefill = if now - b.lastRefill ≤ 0 then b.lastRefill else now := by
  simp only [Bucket.refill]
  split <;> rfl

theorem Bucket.refill_lastAccess (b : Bucket) (now : ℚ) :
    (b.refill now).lastAccess = b.lastAccess := by
  simp only [Bucket.refill]
  split <;> rfl

theorem Bucket.refill_inv (b : Bucket) (now : ℚ) (hr : 0 < b.refillRate)
    (h : b.Inv) : (b.refill now).Inv := by
  obtain ⟨h0, hc⟩ := h
  refine ⟨?_, ?_⟩
  · rw [b.refill_tokens_eq now]
    split
    · exact h0
    · rename_i hd
      push_neg at hd
      have htr : 0 ≤ truncQ ((now - b.lastRefill) * b.refillRate) :=
        truncQ_nonneg (le_of_lt (mul_pos hd hr))
      omega
  · rw [b.refill_tokens_eq now, b.refill_capacity now]
    split
    · exact hc
    · omega

theorem Bucket.allow_inv (b : Bucket) (now : ℚ) (hr : 0 < b.refillRate)
    (h : b.Inv) : ((b.Allow now).2).Inv := by
  obtain ⟨h1, h2⟩ := b.refill_inv now hr h
  rw [b.allow_snd_eq now]
  split
  · rename_i ht
    refine ⟨?_, ?_⟩
    · show (0 : Int) ≤ (b.refill now).tokens - 1
      omega
    · show (b.refill now).tokens - 1 ≤ (b.refill now).capacity
      omega
  · exact ⟨h1, h2⟩

theorem allowSeq_inv (ts : List ℚ) (b : Bucket) (hr : 0 < b.refillRate)
    (h : b.Inv) : (allowSeq b ts).Inv := by
  induction ts generalizing b with
  | nil => exact h
  | cons t ts ih =>
    have h1 : ((b.Allow t).2).Inv := b.allow_inv t hr h
    have h2 : 0 < ((b.Allow t).2).refillRate := by
      rw [b.allow_refillRate t]; exact hr
    exact ih (b.Allow t).2 h2 h1

/-- Unpacking a successful `NewBucket`: the inputs were positive and the
bucket starts full with both timestamps at `now`. -/
theorem NewBucket_some {capacity : Int} {rate : ℚ} {now : ℚ} {b : Bucket}
    (h : NewBucket capacity rate now = some b) :
    0 < capacity ∧ 0 < rate ∧
      b = { capacity := capacity, tokens := capacity, refillRate := rate,
            lastRefill := now, lastAccess := now } := by
  unfold NewBucket at h
  split at h
  · exact absurd h (by simp)
  · rename_i hcr
    push_neg at hcr
    exact ⟨hcr.1, hcr.2, (Option.some.inj h).symm⟩

/-! ## Claim theorems: token bucket -/

/-- C2: For every Bucket created with positive capacity and positive refill
rate, and any sequence of `Allow` calls at arbitrary times, the invariant
`0 ≤ tokens ≤ capacity` holds at every observable state: the fresh bucket
starts with `tokens = capacity`, `refill` never raises `tokens` above
`capacity`, and `Allow` decrements exactly when the refilled bucket holds at
least one token. -/
theorem bucket_tokens_within_bounds (capacity : Int) (rate : ℚ) (t0 : ℚ)
    (b0 : Bucket) (h : NewBucket capacity rate t0 = some b0) (ts : List ℚ) :
    b0.tokens = b0.capacity ∧
    (allowSeq b0 ts).Inv ∧
    (∀ b : Bucket, ∀ now : ℚ, 0 < b.refillRate → b.Inv →
        (b.refill now).tokens ≤ b.capacity) ∧
    (∀ b : Bucket, ∀ now : ℚ, ((b.Allow now).1 = true ↔ 1 ≤ (b.refill now).tokens)) ∧
    (∀ b : Bucket, ∀ now : ℚ, (b.Allow now).1 = true →
        ((b.Allow now).2).tokens = (b.refill now).tokens - 1) ∧
    (∀ b : Bucket, ∀ now : ℚ, (b.Allow now).1 = false →
        ((b.Allow now).2).tokens = (b.refill now).tokens) := by
  obtain ⟨hcap, hrate, hb⟩ := NewBucket_some h
  subst hb
  refine ⟨rfl, ?_, ?_, ?_, ?_, ?_⟩
  · exact allowSeq_inv ts _ hrate ⟨le_of_lt hcap, le_refl _⟩
  · intro b now hr hInv
    have h2 := (b.refill_inv now hr hInv).2
    rwa [b.refill_capacity now] at h2
  · intro b now
    exact b.allow_fst_iff now
  · intro b now hAdm
    have hc := (b.allow_fst_iff now).mp hAdm
    rw [b.allow_snd_eq now, if_pos hc]
  · intro b now hRef
    have hc : ¬ 1 ≤ (b.refill now).tokens := fun hc =>
      by simp [(b.allow_fst_iff now).mpr hc] at hRef
    rw [b.allow_snd_eq now, if_neg hc]

/-- Witness for C2 at `capacity = 2`, `rate = 1`, created at time 0, with
`Allow` calls at times 0, 0 and 1. -/
theorem bucket_tokens_within_bounds_witness :
    NewBucket 2 1 0 = some ⟨2, 2, 1, 0, 0⟩ ∧
    ((⟨2, 2, 1, 0, 0⟩ : Bucket).tokens = (⟨2, 2, 1, 0, 0⟩ : Bucket).capacity ∧
     (allowSeq ⟨2, 2, 1, 0, 0⟩ [0, 0, 1]).Inv ∧
     (∀ b : Bucket, ∀ now : ℚ, 0 < b.refillRate → b.Inv →
         (b.refill now).tokens ≤ b.capacity) ∧
     (∀ b : Bucket, ∀ now : ℚ, ((b.Allow now).1 = true ↔ 1 ≤ (b.refill now).tokens)) ∧
     (∀ b : Bucket, ∀ now : ℚ, (b.Allow now).1 = true →
         ((b.Allow now).2).tokens = (b.refill now).tokens - 1) ∧
     (∀ b : Bucket, ∀ now : ℚ, (b.Allow now).1 = false →
         ((b.Allow now).2).tokens = (b.refill now).tokens)) :=
  ⟨by decide, bucket_tokens_within_bounds 2 1 0 ⟨2, 2, 1, 0, 0⟩ (by decide) [0, 0, 1]⟩

theorem Bucket.refill_of_no_elapse (b : Bucket) (now : ℚ)
    (h : now - b.lastRefill ≤ 0) : b.refill now = b := by
  simp only [Bucket.refill, if_pos h]

/-- Refilling twice at the same instant is the same as refilling once. -/
theorem Bucket.refill_refill (b : Bucket) (now : ℚ) :
    (b.refill now).refill now = b.refill now := by
  by_cases hd : now - b.lastRefill ≤ 0
  · rw [b.refill_of_no_elapse now hd, b.refill_of_no_elapse now hd]
  · have hlr : (b.refill now).lastRefill = now := by
      rw [b.refill_lastRefill_eq now, if_neg hd]
    exact (b.refill now).refill_of_no_elapse now (by rw [hlr]; simp)

/-- `Allow` only looks at the bucket through `refill`. -/
theorem Bucket.allow_congr {b c : Bucket} (now : ℚ)
    (h : b.refill now = c.refill now) : b.Allow now = c.Allow now := by
  unfold Bucket.Allow
  rw [h]

/-- A bucket whose `lastRefill` is the current instant admits, among `n`
back-to-back `Allow` calls, exactly `min n tokens` of them. -/
theorem countAllow_at_lastRefill :
    ∀ (n : Nat) (b : Bucket) (now : ℚ), b.lastRefill = now → 0 ≤ b.tokens →
      countAllow b now n = min n b.tokens.toNat := by
  intro n
  induction n with
  | zero =>
    intro b now _ _
    simp [countAllow]
  | succ m ih =>
    intro b now hlr h0
    have hrefill : b.refill now = b :=
      b.refill_of_no_elapse now (by rw [hlr]; simp)
    simp only [countAllow]
    by_cases ht : 1 ≤ b.tokens
    · have hfst : (b.Allow now).1 = true := by
        rw [b.allow_fst_iff now, hrefill]; exact ht
      have hsnd : (b.Allow now).2 =
          { b with tokens := b.tokens - 1, lastAccess := now } := by
        rw [b.allow_snd_eq now, hrefill, if_pos ht]
      rw [hfst, hsnd,
          ih { b with tokens := b.tokens - 1, lastAccess := now } now hlr
            (by show (0 : Int) ≤ b.tokens - 1; omega)]
      show (if true then 1 else 0) + min m (b.tokens - 1).toNat = min (m + 1) b.tokens.toNat
      simp only [if_pos trivial]
      omega
    · have hfst : (b.Allow now).1 = false := by
        cases hf : (b.Allow now).1
        · rfl
        · have h1 : 1 ≤ (b.refill now).tokens := (b.allow_fst_iff now).mp hf
          rw [hrefill] at h1
          exact absurd h1 ht
      have hsnd : (b.Allow now).2 = b := by
        rw [b.allow_snd_eq now, hrefill, if_neg ht]
      rw [hfst, hsnd, ih b now hlr h0]
      show 0 + min m b.tokens.toNat = min (m + 1) b.tokens.toNat
      omega

/-- C3: After draining a bucket to 0 tokens and waiting `dt > 0` seconds, the
number of immediately-successful `Allow` calls among `n` back-to-back calls is
`min n (min capacity ⌊dt * refillRate⌋)` — for `n` large enough, exactly
`min capacity ⌊dt * refillRate⌋`; and a refill with elapsed time adds
`⌊elapsed * refillRate⌋` tokens capped at capacity, then stamps
`lastRefill = now`. -/
theorem drained_bucket_refill_count (b : Bucket) (dt : ℚ) (n : Nat)
    (hr : 0 < b.refillRate) (hc : 0 < b.capacity) (h0 : b.tokens = 0)
    (hdt : 0 < dt) :
    countAllow b (b.lastRefill + dt) n =
      min n (Int.toNat (min b.capacity ⌊dt * b.refillRate⌋)) ∧
    (∀ b' : Bucket, ∀ now : ℚ, b'.lastRefill < now → 0 ≤ b'.refillRate →
        (b'.refill now).tokens =
          min b'.capacity (b'.tokens + ⌊(now - b'.lastRefill) * b'.refillRate⌋) ∧
        (b'.refill now).lastRefill = now) := by
  constructor
  · set now := b.lastRefill + dt with hnow
    have hdpos : ¬ now - b.lastRefill ≤ 0 := by
      rw [hnow]; push_neg; linarith
    have helapsed : now - b.lastRefill = dt := by rw [hnow]; ring
    have htr : truncQ ((now - b.lastRefill) * b.refillRate) = ⌊dt * b.refillRate⌋ := by
      rw [helapsed, truncQ_of_nonneg (le_of_lt (mul_pos hdt hr))]
    have htok : (b.refill now).tokens = min b.capacity ⌊dt * b.refillRate⌋ := by
      rw [b.refill_tokens_eq now, if_neg hdpos, htr, h0, zero_add]
    have hlr : (b.refill now).lastRefill = now := by
      rw [b.refill_lastRefill_eq now, if_neg hdpos]
    have hfloor : 0 ≤ ⌊dt * b.refillRate⌋ :=
      Int.floor_nonneg.mpr (le_of_lt (mul_pos hdt hr))
    have hcong : countAllow b now n = countAllow (b.refill now) now n := by
      cases n with
      | zero => rfl
      | succ m =>
        simp only [countAllow, Bucket.allow_congr now (b.refill_refill now).symm]
    rw [hcong, countAllow_at_lastRefill n (b.refill now) now hlr (by omega), htok]
  · intro b' now hlt hr'
    have hd : ¬ now - b'.lastRefill ≤ 0 := by push_neg; linarith
    constructor
    · rw [b'.refill_tokens_eq now, if_neg hd,
          truncQ_of_nonneg (mul_nonneg (by linarith) hr')]
    · rw [b'.refill_lastRefill_eq now, if_neg hd]

/-- Witness for C3: capacity 3, rate 2, drained bucket, wait 1 s: exactly
`min 3 ⌊2⌋ = 2` of 5 back-to-back calls succeed; and the refill clause at a
concrete bucket. -/
theorem drained_bucket_refill_count_witness :
    (0 : ℚ) < 2 ∧ (0 : Int) < 3 ∧
    countAllow ⟨3, 0, 2, 5, 0⟩ (5 + 1) 5 =
      min 5 (Int.toNat (min 3 ⌊(1 : ℚ) * 2⌋)) := by
  refine ⟨by norm_num, by norm_num, ?_⟩
  exact (drained_bucket_refill_count ⟨3, 0, 2, 5, 0⟩ 1 5 (by norm_num) (by norm_num)
    rfl (by norm_num)).1

/-- Moving the reference point later only shrinks the first gap. -/
theorem gapsOK_mono {r t L : ℚ} (hle : t ≤ L) :
    ∀ ts : List ℚ, gapsOK r t ts = true → gapsOK r L ts = true := by
  intro ts
  cases ts with
  | nil => intro _; rfl
  | cons t2 rest =>
    simp only [gapsOK, Bool.and_eq_true, decide_eq_true_eq]
    rintro ⟨h1, h2⟩
    exact ⟨by linarith, h2⟩

/-- Core of C9: a drained bucket refuses every `Allow` call when consecutive
calls are separated by less than `1 / refillRate` seconds — each refill
discards the fractional progress by resetting `lastRefill`. -/
theorem allowResults_all_false :
    ∀ (ts : List ℚ) (b : Bucket), 0 < b.refillRate → 0 ≤ b.capacity →
      b.tokens = 0 → gapsOK b.refillRate b.lastRefill ts = true →
      allowResults b ts = List.replicate ts.length false := by
  intro ts
  induction ts with
  | nil => intro b _ _ _ _; rfl
  | cons t rest ih =>
    intro b hr hc h0 hg
    simp only [gapsOK, Bool.and_eq_true, decide_eq_true_eq] at hg
    obtain ⟨hgap, hrest⟩ := hg
    by_cases hd : t - b.lastRefill ≤ 0
    · have hrefill : b.refill t = b := b.refill_of_no_elapse t hd
      have hfst : (b.Allow t).1 = false := by
        cases hf : (b.Allow t).1
        · rfl
        · have h1 := (b.allow_fst_iff t).mp hf
          rw [hrefill, h0] at h1
          exact absurd h1 (by norm_num)
      have hsnd : (b.Allow t).2 = b := by
        rw [b.allow_snd_eq t, hrefill, if_neg (by rw [h0]; norm_num)]
      simp only [allowResults, hfst, hsnd, List.length_cons, List.replicate_succ]
      exact congrArg (List.cons false)
        (ih b hr hc h0 (gapsOK_mono (by linarith) rest hrest))
    · push_neg at hd
      have hmul : (t - b.lastRefill) * b.refillRate < 1 := by
        have h2 : (t - b.lastRefill) * b.refillRate < (1 / b.refillRate) * b.refillRate :=
          mul_lt_mul_of_pos_right hgap hr
        rwa [one_div, inv_mul_cancel₀ (ne_of_gt hr)] at h2
      have hpos : 0 ≤ (t - b.lastRefill) * b.refillRate :=
        le_of_lt (mul_pos hd hr)
      have hfloor : truncQ ((t - b.lastRefill) * b.refillRate) = 0 := by
        rw [truncQ_of_nonneg hpos]
        exact Int.floor_eq_zero_iff.mpr (Set.mem_Ico.mpr ⟨hpos, hmul⟩)
      have htok : (b.refill t).tokens = 0 := by
        rw [b.refill_tokens_eq t, if_neg (not_le.mpr hd), hfloor, h0]
        omega
      have hlr : (b.refill t).lastRefill = t := by
        rw [b.refill_lastRefill_eq t, if_neg (not_le.mpr hd)]
      have hfst : (b.Allow t).1 = false := by
        cases hf : (b.Allow t).1
        · rfl
        · have h1 := (b.allow_fst_iff t).mp hf
          rw [htok] at h1
          exact absurd h1 (by norm_num)
      have hsnd : (b.Allow t).2 = b.refill t := by
        rw [b.allow_snd_eq t, if_neg (by rw [htok]; norm_num)]
      simp only [allowResults, hfst, hsnd, List.length_cons, List.replicate_succ]
      refine congrArg (List.cons false) (ih (b.refill t) ?_ ?_ htok ?_)
      · rw [b.refill_refillRate t]; exact hr
      · rw [b.refill_capacity t]; exact hc
      · rw [b.refill_refillRate t, hlr]; exact hrest

/-- C9: a Bucket drained to 0 tokens refuses every one of a run of `Allow`
calls whose consecutive gaps are each strictly below `1 / refillRate` seconds:
`refill` resets `lastRefill` to the current time even when
`⌊elapsed * refillRate⌋ = 0` tokens were added, so fractional refill progress
is discarded and tokens never accumulate. -/
theorem drained_bucket_subunit_gaps_starve :
    (∀ (b : Bucket) (ts : List ℚ), 0 < b.refillRate → 0 ≤ b.capacity →
        b.tokens = 0 → gapsOK b.refillRate b.lastRefill ts = true →
        allowResults b ts = List.replicate ts.length false) ∧
    (∀ (b : Bucket) (now : ℚ), b.lastRefill < now →
        (b.refill now).lastRefill = now) := by
  constructor
  · intro b ts hr hc h0 hg
    exact allowResults_all_false ts b hr hc h0 hg
  · intro b now hlt
    rw [b.refill_lastRefill_eq now, if_neg (by push_neg; linarith)]

/-- Witness for C9: rate 2 (so `1/rate = 0.5` s), drained bucket, calls at
0.4, 0.8 and 1.2 s — all refused. -/
theorem drained_bucket_subunit_gaps_starve_witness :
    (0 : ℚ) < 2 ∧ gapsOK 2 0 [2/5, 4/5, 6/5] = true ∧
    allowResults ⟨5, 0, 2, 0, 0⟩ [2/5, 4/5, 6/5] = List.replicate 3 false := by
  refine ⟨by norm_num, by norm_num [gapsOK], ?_⟩
  exact drained_bucket_subunit_gaps_starve.1 ⟨5, 0, 2, 0, 0⟩ [2/5, 4/5, 6/5]
    (by norm_num) (by norm_num) rfl (by norm_num [gapsOK])

/-! ## GetNextPeer lemmas -/

/-- Liveness of the backend the scan probes at scan offset `k`. -/
def aliveAt (bs : List Backend) (c n k : Nat) : Bool :=
  (bs.getD ((c + 1 + k) % n) deadBackend).IsAlive

/-- Full characterization of the scan loop, by induction on the remaining
iteration budget: a `none` result means every probed position from offset `i`
on was dead; a `some j` result identifies the first live offset. -/
theorem scanAlive_spec (bs : List Backend) (c n : Nat) :
    ∀ (left i : Nat), i + left = n →
      (scanAlive bs c n i left = none →
        ∀ k, i ≤ k → k < n → aliveAt bs c n k = false) ∧
      (∀ j, scanAlive bs c n i left = some j →
        ∃ k, i ≤ k ∧ k < n ∧ j = (c + 1 + k) % n ∧ aliveAt bs c n k = true ∧
          ∀ m, i ≤ m → m < k → aliveAt bs c n m = false) := by
  intro left
  induction left with
  | zero =>
    intro i hn
    constructor
    · intro _ k hik hkn
      omega
    · intro j hj
      exact absurd hj (by simp [scanAlive])
  | succ left ih =>
    intro i hn
    by_cases halive : (bs.getD ((c + 1 + i) % n) deadBackend).IsAlive = true
    · have hred : scanAlive bs c n i (left + 1) = some ((c + 1 + i) % n) := by
        simp only [scanAlive]
        exact if_pos halive
      constructor
      · intro hnone
        rw [hred] at hnone
        exact absurd hnone (by simp)
      · intro j hj
        rw [hred] at hj
        refine ⟨i, le_refl i, by omega, (Option.some.inj hj).symm, halive, ?_⟩
        intro m him hmi
        omega
    · have hfalse : aliveAt bs c n i = false := by
        cases h : (bs.getD ((c + 1 + i) % n) deadBackend).IsAlive
        · exact h
        · exact absurd h halive
      have hred : scanAlive bs c n i (left + 1) = scanAlive bs c n (i + 1) left := by
        simp only [scanAlive]
        exact if_neg halive
      obtain ⟨ihn, ihs⟩ := ih (i + 1) (by omega)
      constructor
      · intro hnone k hik hkn
        rw [hred] at hnone
        rcases Nat.eq_or_lt_of_le hik with heq | hlt
        · rw [← heq]; exact hfalse
        · exact ihn hnone k hlt hkn
      · intro j hj
        rw [hred] at hj
        obtain ⟨k, hk1, hk2, hk3, hk4, hk5⟩ := ihs j hj
        refine ⟨k, by omega, hk2, hk3, hk4, ?_⟩
        intro m him hmk
        rcases Nat.eq_or_lt_of_le him with heq | hlt
        · rw [← heq]; exact hfalse
        · exact hk5 m hlt hmk

/-- A returned peer always has its Alive flag set, the backend sequence is
untouched, and the cursor is stored as the index of the first alive backend in
scan order. -/
theorem getNextPeer_some {s : ServerPool} {b : Backend} {s' : ServerPool}
    (h : s.GetNextPeer = (some b, s')) :
    b.IsAlive = true ∧ s'.backends = s.backends ∧
    ∃ k, k < s.backends.length ∧
      s'.current = (s.current + 1 + k) % s.backends.length ∧
      b = s.backends.getD s'.current deadBackend ∧
      ∀ m, m < k → aliveAt s.backends s.current s.backends.length m = false := by
  unfold ServerPool.GetNextPeer at h
  by_cases hn : s.backends.length = 0
  · rw [if_pos hn] at h
    exact absurd (congrArg Prod.fst h) (by simp)
  · rw [if_neg hn] at h
    cases hscan : scanAlive s.backends s.current s.backends.length 0 s.backends.length with
    | none =>
      rw [hscan] at h
      exact absurd (congrArg Prod.fst h) (by simp)
    | some idx =>
      rw [hscan] at h
      obtain ⟨hb, hs'⟩ := Prod.mk.injEq .. ▸ h
      obtain ⟨k, _, hk2, hk3, hk4, hk5⟩ :=
        (scanAlive_spec s.backends s.current s.backends.length
          s.backends.length 0 (by omega)).2 idx hscan
      have hb' : b = s.backends.getD idx deadBackend := (Option.some.inj hb).symm
      refine ⟨?_, by rw [← hs'], k, hk2, ?_, ?_, ?_⟩
      · rw [hb', hk3]
        exact hk4
      · rw [← hs', hk3]
      · rw [← hs']
        exact hb'
      · intro m hmk
        exact hk5 m (Nat.zero_le m) hmk

/-- If `GetNextPeer` finds no peer, the pool — cursor included — is returned
unchanged. -/
theorem getNextPeer_none {s : ServerPool} (h : (s.GetNextPeer).1 = none) :
    s.GetNextPeer = (none, s) := by
  unfold ServerPool.GetNextPeer at h ⊢
  by_cases hn : s.backends.length = 0
  · rw [if_pos hn]
  · rw [if_neg hn] at h ⊢
    cases hscan : scanAlive s.backends s.current s.backends.length 0 s.backends.length with
    | none => rfl
    | some idx =>
      rw [hscan] at h
      exact absurd h (by simp)

/-- When every position in scan order is dead, the scan yields no peer. -/
theorem getNextPeer_all_dead {s : ServerPool}
    (h : ∀ k, k < s.backends.length →
      aliveAt s.backends s.current s.backends.length k = false) :
    s.GetNextPeer = (none, s) := by
  unfold ServerPool.GetNextPeer
  by_cases hn : s.backends.length = 0
  · rw [if_pos hn]
  · rw [if_neg hn]
    cases hscan : scanAlive s.backends s.current s.backends.length 0 s.backends.length with
    | none => rfl
    | some idx =>
      obtain ⟨k, _, hk2, _, hk4, _⟩ :=
        (scanAlive_spec s.backends s.current s.backends.length
          s.backends.length 0 (by omega)).2 idx hscan
      rw [h k hk2] at hk4
      exact absurd hk4 (by simp)

/-- C1: `GetNextPeer` on an empty pool returns no peer without scanning; when
it returns a peer, that peer's Alive flag is set, the cursor is stored as the
peer's index `(c + 1 + k) % n` for the first scan offset `k` whose position is
alive (every earlier offset probed dead), and the backend sequence is
untouched; when every scanned position is dead it returns no peer and leaves
the pool unchanged. -/
theorem getNextPeer_round_robin (s : ServerPool) :
    (s.backends.length = 0 → s.GetNextPeer = (none, s)) ∧
    (∀ (b : Backend) (s' : ServerPool), s.GetNextPeer = (some b, s') →
        b.IsAlive = true ∧ s'.backends = s.backends ∧
        ∃ k, k < s.backends.length ∧
          s'.current = (s.current + 1 + k) % s.backends.length ∧
          b = s.backends.getD s'.current deadBackend ∧
          ∀ m, m < k → aliveAt s.backends s.current s.backends.length m = false) ∧
    ((∀ k, k < s.backends.length →
        aliveAt s.backends s.current s.backends.length k = false) →
      s.GetNextPeer = (none, s)) := by
  refine ⟨?_, ?_, ?_⟩
  · intro h
    simp only [ServerPool.GetNextPeer]
    rw [if_pos h]
  · intro b s' h
    exact getNextPeer_some h
  · exact getNextPeer_all_dead

/-- Witness for C1: the empty pool, and a pool whose only live backend is at
index 2 with the cursor at 0. -/
theorem getNextPeer_round_robin_witness :
    ServerPool.GetNextPeer ⟨[], 0⟩ = (none, ⟨[], 0⟩) ∧
    Backend.IsAlive ⟨"b3", true⟩ = true := by
  constructor
  · exact (getNextPeer_round_robin ⟨[], 0⟩).1 rfl
  · exact ((getNextPeer_round_robin ⟨[⟨"b1", false⟩, ⟨"b2", false⟩, ⟨"b3", true⟩], 0⟩).2.1
      ⟨"b3", true⟩ ⟨[⟨"b1", false⟩, ⟨"b2", false⟩, ⟨"b3", true⟩], 2⟩ (by decide)).1

/-- C10: whenever `GetNextPeer` returns no peer, the pool — its cursor
included — is left unchanged; the cursor is written only when an alive
backend is found and returned. -/
theorem getNextPeer_no_peer_frame (s : ServerPool) :
    ((s.GetNextPeer).1 = none → (s.GetNextPeer).2 = s) ∧
    (∀ (b : Backend) (s' : ServerPool), s.GetNextPeer = (some b, s') →
        s'.backends = s.backends ∧ b.IsAlive = true) := by
  constructor
  · intro h
    rw [getNextPeer_none h]
  · intro b s' h
    obtain ⟨h1, h2, _⟩ := getNextPeer_some h
    exact ⟨h2, h1⟩

/-- Witness for C10: a pool of two dead backends with cursor 7 is returned
verbatim. -/
theorem getNextPeer_no_peer_frame_witness :
    (ServerPool.GetNextPeer ⟨[⟨"b1", false⟩, ⟨"b2", false⟩], 7⟩).1 = none ∧
    (ServerPool.GetNextPeer ⟨[⟨"b1", false⟩, ⟨"b2", false⟩], 7⟩).2 =
      ⟨[⟨"b1", false⟩, ⟨"b2", false⟩], 7⟩ := by
  refine ⟨by decide, ?_⟩
  exact (getNextPeer_no_peer_frame ⟨[⟨"b1", false⟩, ⟨"b2", false⟩], 7⟩).1 (by decide)

/-! ## Dispatcher lemmas -/

/-- Full characterization of the dispatcher loop, by induction on the
remaining iteration budget: exiting with no peer consumes the whole budget
(one `GetNextPeer` call and one `attempts` increment per iteration); exiting
with a peer spends `a' - attempts` failed calls plus the successful one, and
the peer is alive. -/
theorem dispatchLoop_spec :
    ∀ (remaining : Nat) (s : ServerPool) (attempts calls : Nat),
      (∀ a' c' s', dispatchLoop s attempts calls remaining = (none, a', c', s') →
        a' = attempts + remaining ∧ c' = calls + remaining) ∧
      (∀ peer a' c' s',
        dispatchLoop s attempts calls remaining = (some peer, a', c', s') →
        attempts ≤ a' ∧ a' < attempts + remaining ∧
        c' = calls + (a' - attempts) + 1 ∧ peer.IsAlive = true) := by
  intro remaining
  induction remaining with
  | zero =>
    intro s attempts calls
    constructor
    · intro a' c' s' h
      simp only [dispatchLoop, Prod.mk.injEq] at h
      omega
    · intro peer a' c' s' h
      simp only [dispatchLoop, Prod.mk.injEq] at h
      exact absurd h.1 (by simp)
  | succ remaining ih =>
    intro s attempts calls
    rcases hg : s.GetNextPeer with ⟨_ | peer0, s2⟩
    · constructor
      · intro a' c' s' h
        simp only [dispatchLoop, hg] at h
        obtain ⟨h1, h2⟩ := (ih s2 (attempts + 1) (calls + 1)).1 a' c' s' h
        omega
      · intro peer a' c' s' h
        simp only [dispatchLoop, hg] at h
        obtain ⟨h1, h2, h3, h4⟩ := (ih s2 (attempts + 1) (calls + 1)).2 peer a' c' s' h
        exact ⟨by omega, by omega, by omega, h4⟩
    · constructor
      · intro a' c' s' h
        simp only [dispatchLoop, hg, Prod.mk.injEq] at h
        exact absurd h.1 (by simp)
      · intro peer a' c' s' h
        simp only [dispatchLoop, hg, Prod.mk.injEq, Option.some.injEq] at h
        obtain ⟨hp, ha, hc, _⟩ := h
        have halive := (getNextPeer_some hg).1
        rw [hp] at halive
        exact ⟨by omega, by omega, by omega, halive⟩

/-- C5: over a non-empty pool the dispatcher makes at most
`maxAttempts = len(backends)` peer-selection calls; when every attempt yields
no peer it answers 503 with the documented JSON body, having used exactly
`maxAttempts` calls; otherwise it forwards to an alive peer with
`retryCount = attempts`, the number of failed selection calls; the
500-misconfiguration answer never occurs on a non-empty pool. -/
theorem dispatcher_bounded_attempts (s : ServerPool) (h : 0 < s.backends.length) :
    (loadBalancerHandler s).2.1 ≤ s.backends.length ∧
    (∀ resp, (loadBalancerHandler s).1 = .unavailable resp →
        resp = RespondWithError 503 "Service Unavailable: No backend servers available" ∧
        resp.status = 503 ∧
        resp.body =
          "\x7b\"code\":503,\"message\":\"Service Unavailable: No backend servers available\"\x7d\n" ∧
        (loadBalancerHandler s).2.1 = s.backends.length) ∧
    (∀ peer k, (loadBalancerHandler s).1 = .forwarded peer k →
        k + 1 = (loadBalancerHandler s).2.1 ∧ k < s.backends.length ∧
        peer.IsAlive = true) ∧
    (∀ resp, (loadBalancerHandler s).1 ≠ .misconfigured resp) := by
  have hne : ¬ s.backends.length = 0 := by omega
  rcases hd : dispatchLoop s 0 0 s.backends.length with ⟨_ | peer0, a', c', s''⟩
  · have heq : loadBalancerHandler s =
        (.unavailable (RespondWithError 503 "Service Unavailable: No backend servers available"),
         c', s'') := by
      simp only [loadBalancerHandler, if_neg hne, hd]
    obtain ⟨h1, h2⟩ := (dispatchLoop_spec s.backends.length s 0 0).1 a' c' s'' hd
    have hfst : (loadBalancerHandler s).1 =
        .unavailable (RespondWithError 503 "Service Unavailable: No backend servers available") := by
      rw [heq]
    have hcalls : (loadBalancerHandler s).2.1 = c' := by rw [heq]
    refine ⟨?_, ?_, ?_, ?_⟩
    · rw [hcalls]; omega
    · intro resp hresp
      rw [hfst] at hresp
      simp only [DispatchResult.unavailable.injEq] at hresp
      rw [← hresp]
      exact ⟨rfl, rfl, rfl, by rw [hcalls]; omega⟩
    · intro peer k hk
      rw [hfst] at hk
      exact absurd hk (by simp)
    · intro resp
      rw [hfst]
      simp
  · have heq : loadBalancerHandler s = (.forwarded peer0 a', c', s'') := by
      simp only [loadBalancerHandler, if_neg hne, hd]
    obtain ⟨h1, h2, h3, h4⟩ :=
      (dispatchLoop_spec s.backends.length s 0 0).2 peer0 a' c' s'' hd
    have hfst : (loadBalancerHandler s).1 = .forwarded peer0 a' := by rw [heq]
    have hcalls : (loadBalancerHandler s).2.1 = c' := by rw [heq]
    refine ⟨?_, ?_, ?_, ?_⟩
    · rw [hcalls]; omega
    · intro resp hresp
      rw [hfst] at hresp
      exact absurd hresp (by simp)
    · intro peer k hk
      rw [hfst] at hk
      simp only [DispatchResult.forwarded.injEq] at hk
      obtain ⟨hp, hkk⟩ := hk
      subst hp
      subst hkk
      exact ⟨by rw [hcalls]; omega, by omega, h4⟩
    · intro resp
      rw [hfst]
      simp

/-- Witness for C5: a two-backend pool whose second backend is alive forwards
with `retryCount = 0` after a single selection call. -/
theorem dispatcher_bounded_attempts_witness :
    0 < (ServerPool.backends ⟨[⟨"b1", false⟩, ⟨"b2", true⟩], 0⟩).length ∧
    (loadBalancerHandler ⟨[⟨"b1", false⟩, ⟨"b2", true⟩], 0⟩).1 =
      .forwarded ⟨"b2", true⟩ 0 ∧
    (0 + 1 = (loadBalancerHandler ⟨[⟨"b1", false⟩, ⟨"b2", true⟩], 0⟩).2.1 ∧
     0 < (ServerPool.backends ⟨[⟨"b1", false⟩, ⟨"b2", true⟩], 0⟩).length ∧
     Backend.IsAlive ⟨"b2", true⟩ = true) := by
  refine ⟨by decide, by decide, ?_⟩
  exact (dispatcher_bounded_attempts ⟨[⟨"b1", false⟩, ⟨"b2", true⟩], 0⟩ (by decide)).2.2.1
    ⟨"b2", true⟩ 0 (by decide)

/-! ## Proxy error handler: C4 -/

/-- C4 counterexample: at a concrete backend and `retryCount = 0` (first
attempt), the proxy error handler's response is Go's `http.Error` output —
`text/plain; charset=utf-8` with the bare message — not the claimed uniform
JSON error body with `application/json; charset=utf-8`. -/
theorem proxyErrorHandler_not_json :
    (proxyErrorHandler ⟨"http://localhost:8081", true⟩ 0).2.contentType =
      "text/plain; charset=utf-8" ∧
    (proxyErrorHandler ⟨"http://localhost:8081", true⟩ 0).2.contentType ≠
      "application/json; charset=utf-8" ∧
    (proxyErrorHandler ⟨"http://localhost:8081", true⟩ 0).2.body =
      "Bad Gateway: Error connecting to backend\n" ∧
    (proxyErrorHandler ⟨"http://localhost:8081", true⟩ 0).2.body ≠
      "\x7b\"code\":502,\"message\":\"Bad Gateway: Error connecting to backend\"\x7d" ∧
    (proxyErrorHandler ⟨"http://localhost:8081", true⟩ 0).2 ≠
      RespondWithError 502 "Bad Gateway: Error connecting to backend" := by
  refine ⟨rfl, by decide, rfl, by decide, by decide⟩

/-- C4 (amended): on upstream failure the error handler reads the retry count
from the request context; when zero it demotes the backend
(`SetAlive(false)`), when non-zero it leaves the backend untouched; in every
case it writes status 502 through Go's plain-text `http.Error` with body
`Bad Gateway: Error connecting to backend` (not the JSON error helper). -/
theorem proxyErrorHandler_spec (b : Backend) (retryCount : Nat) :
    (retryCount = 0 → (proxyErrorHandler b retryCount).1 = b.SetAlive false ∧
        ((proxyErrorHandler b retryCount).1).Alive = false) ∧
    (retryCount ≠ 0 → (proxyErrorHandler b retryCount).1 = b) ∧
    (proxyErrorHandler b retryCount).2 =
      httpError "Bad Gateway: Error connecting to backend" 502 ∧
    (proxyErrorHandler b retryCount).2.status = 502 ∧
    (proxyErrorHandler b retryCount).2.contentType = "text/plain; charset=utf-8" ∧
    (proxyErrorHandler b retryCount).2.body =
      "Bad Gateway: Error connecting to backend\n" := by
  refine ⟨?_, ?_, rfl, rfl, rfl, rfl⟩
  · intro h
    subst h
    exact ⟨rfl, rfl⟩
  · intro h
    have hn : ¬ retryCount < 1 := by omega
    simp only [proxyErrorHandler, if_neg hn]

/-- Witness for C4 (amended): first failure demotes, a retry failure does
not. -/
theorem proxyErrorHandler_spec_witness :
    ((proxyErrorHandler ⟨"http://b1", true⟩ 0).1).Alive = false ∧
    (proxyErrorHandler ⟨"http://b1", true⟩ 1).1 = ⟨"http://b1", true⟩ :=
  ⟨((proxyErrorHandler_spec ⟨"http://b1", true⟩ 0).1 rfl).2,
   (proxyErrorHandler_spec ⟨"http://b1", true⟩ 1).2.1 (by decide)⟩

/-! ## BucketStore creation: C6 -/

/-- On a creation path, the bucket handed back is built by `NewBucket` from
the chosen parameters. -/
theorem getOrCreateBucket_miss (s : BucketStore) (clientID : String) (now : ℚ)
    (h : s.buckets.lookup clientID = none) :
    (GetOrCreateBucket s clientID now).1 =
      NewBucket (chooseParams s clientID).1 (chooseParams s clientID).2 now := by
  simp only [GetOrCreateBucket, h]
  cases hnb : NewBucket (chooseParams s clientID).1 (chooseParams s clientID).2 now <;>
    simp [hnb]

theorem chooseParams_custom {s : BucketStore} {p : LimitProvider}
    (clientID : String) (hp : s.limitProvider = some p)
    {cc : Int} {cr : ℚ} (hr : p clientID = (cc, cr, true))
    (hcc : 0 < cc) (hcr : 0 < cr) : chooseParams s clientID = (cc, cr) := by
  simp only [chooseParams, hp, hr]
  rw [if_pos trivial, if_pos ⟨hcc, hcr⟩]

theorem chooseParams_invalid {s : BucketStore} {p : LimitProvider}
    (clientID : String) (hp : s.limitProvider = some p)
    {cc : Int} {cr : ℚ} (hr : p clientID = (cc, cr, true))
    (hinv : ¬(0 < cc ∧ 0 < cr)) :
    chooseParams s clientID = (s.defaultCapacity, s.defaultRefillRate) := by
  simp only [chooseParams, hp, hr]
  rw [if_pos trivial, if_neg hinv]

theorem chooseParams_notfound {s : BucketStore} {p : LimitProvider}
    (clientID : String) (hp : s.limitProvider = some p)
    {cc : Int} {cr : ℚ} (hr : p clientID = (cc, cr, false)) :
    chooseParams s clientID = (s.defaultCapacity, s.defaultRefillRate) := by
  simp only [chooseParams, hp, hr]
  rw [if_neg (by simp)]

theorem chooseParams_noProvider {s : BucketStore} (clientID : String)
    (hp : s.limitProvider = none) :
    chooseParams s clientID = (s.defaultCapacity, s.defaultRefillRate) := by
  simp only [chooseParams, hp]

/-- C6: for a clientID with no existing bucket, `GetOrCreateBucket` builds the
new bucket with the provider's custom capacity and rate when the provider
reports `found = true` with both values positive; with the defaults when the
reported values are not both positive (warn-and-fall-back), when
`found = false`, or when no provider is configured. -/
theorem getOrCreateBucket_provider_params (s : BucketStore) (clientID : String)
    (now : ℚ) (h : s.buckets.lookup clientID = none) :
    (∀ p : LimitProvider, s.limitProvider = some p →
        (∀ (cc : Int) (cr : ℚ), p clientID = (cc, cr, true) → 0 < cc → 0 < cr →
            (GetOrCreateBucket s clientID now).1 = NewBucket cc cr now) ∧
        (∀ (cc : Int) (cr : ℚ), p clientID = (cc, cr, true) → ¬(0 < cc ∧ 0 < cr) →
            (GetOrCreateBucket s clientID now).1 =
              NewBucket s.defaultCapacity s.defaultRefillRate now) ∧
        (∀ (cc : Int) (cr : ℚ), p clientID = (cc, cr, false) →
            (GetOrCreateBucket s clientID now).1 =
              NewBucket s.defaultCapacity s.defaultRefillRate now)) ∧
    (s.limitProvider = none →
        (GetOrCreateBucket s clientID now).1 =
          NewBucket s.defaultCapacity s.defaultRefillRate now) := by
  constructor
  · intro p hp
    refine ⟨?_, ?_, ?_⟩
    · intro cc cr hr hcc hcr
      rw [getOrCreateBucket_miss s clientID now h,
          chooseParams_custom clientID hp hr hcc hcr]
    · intro cc cr hr hinv
      rw [getOrCreateBucket_miss s clientID now h,
          chooseParams_invalid clientID hp hr hinv]
    · intro cc cr hr
      rw [getOrCreateBucket_miss s clientID now h,
          chooseParams_notfound clientID hp hr]
  · intro hp
    rw [getOrCreateBucket_miss s clientID now h, chooseParams_noProvider clientID hp]

/-- A concrete provider for the C6 witness: client `vip` has capacity 20 and
rate 5, everyone else is not found. -/
def providerW : LimitProvider :=
  fun clientID => if clientID = "vip" then (20, 5, true) else (0, 0, false)

/-- A concrete store for the C6 witness: defaults 10 and 1, `providerW`
attached, empty map. -/
def storeW : BucketStore :=
  { buckets := [], defaultCapacity := 10, defaultRefillRate := 1,
    limitProvider := some providerW }

/-- Witness for C6: a cold miss for `vip` uses the provider's custom values;
a cold miss for `anon` (reported not-found) uses the defaults. -/
theorem getOrCreateBucket_provider_params_witness :
    storeW.buckets.lookup "vip" = none ∧
    (GetOrCreateBucket storeW "vip" 0).1 = NewBucket 20 5 0 ∧
    (GetOrCreateBucket storeW "anon" 0).1 = NewBucket 10 1 0 := by
  refine ⟨rfl, ?_, ?_⟩
  · exact ((getOrCreateBucket_provider_params storeW "vip" 0 rfl).1 providerW rfl).1
      20 5 rfl (by norm_num) (by norm_num)
  · exact ((getOrCreateBucket_provider_params storeW "anon" 0 rfl).1 providerW rfl).2.2
      0 0 rfl

/-! ## Client-identifier extraction: C7 -/

/-- The last-colon search fails exactly on colon-free strings. -/
theorem lastColonIndex_none_iff : ∀ l : List Char, lastColonIndex l = none ↔ ':' ∉ l := by
  intro l
  induction l with
  | nil => simp [lastColonIndex]
  | cons ch rest ih =>
    simp only [lastColonIndex]
    cases h : lastColonIndex rest with
    | some j =>
      rw [h] at ih
      have hmem : ':' ∈ rest := by
        by_contra hn
        exact absurd (ih.mpr hn) (by simp)
      simp [hmem]
    | none =>
      rw [h] at ih
      have hnot : ':' ∉ rest := ih.mp rfl
      by_cases hc : ch = ':'
      · simp [hc]
      · simp only [if_neg hc]
        simp only [List.mem_cons, not_or]
        constructor
        · intro _
          exact ⟨fun hh => hc hh.symm, hnot⟩
        · intro _
          trivial

/-- C7 counterexample: a bracketed IPv6 address with no port is **not** left
unchanged — the truncation at the last colon still applies (IPv6 literals
contain colons), so `[::1]` maps to `[:`; and a bracketed colon-free address
is not left unchanged either — its brackets are stripped. -/
theorem extractClientID_bracketed_changed :
    extractClientID "[::1]" = "[:" ∧ extractClientID "[::1]" ≠ "[::1]" ∧
    extractClientID "[abc]" = "abc" ∧ extractClientID "[abc]" ≠ "[abc]" := by
  refine ⟨by decide, by decide, by decide, by decide⟩

/-- C7 (amended): the extraction truncates at the last colon when one exists
and then unwraps surrounding brackets.  A colon-free address that is not
bracketed is returned whole; a colon-free bracketed address loses only its
brackets; an address containing a colon — a bracketed IPv6 literal with no
port included — is cut at its last colon before the bracket check, so such an
address is never returned unchanged with its brackets intact. -/
theorem extractClientID_spec (addr : String) :
    (':' ∉ addr.data →
        ¬(addr.data.head? = some '[' ∧ addr.data.getLast? = some ']') →
        extractClientID addr = addr) ∧
    (':' ∉ addr.data → addr.data.head? = some '[' →
        addr.data.getLast? = some ']' →
        extractClientID addr = ⟨(addr.data.drop 1).dropLast⟩) ∧
    (∀ i, lastColonIndex addr.data = some i →
        extractClientID addr = stripBrackets ⟨addr.data.take i⟩) := by
  refine ⟨?_, ?_, ?_⟩
  · intro hno hbr
    have hnone : lastColonIndex addr.data = none := (lastColonIndex_none_iff _).mpr hno
    simp only [extractClientID, hnone, stripBrackets]
    rw [if_neg hbr]
  · intro hno h1 h2
    have hnone : lastColonIndex addr.data = none := (lastColonIndex_none_iff _).mpr hno
    simp only [extractClientID, hnone, stripBrackets]
    rw [if_pos ⟨h1, h2⟩]
  · intro i hi
    simp only [extractClientID, hi]

/-- Witness for C7 (amended): `localhost` (no colon, no brackets) is returned
whole; `1.2.3.4:8080` is cut at its last colon and has no brackets to strip. -/
theorem extractClientID_spec_witness :
    (':' ∉ "localhost".data) ∧ extractClientID "localhost" = "localhost" ∧
    extractClientID "1.2.3.4:8080" = stripBrackets ⟨"1.2.3.4:8080".data.take 7⟩ := by
  refine ⟨by decide, ?_, ?_⟩
  · exact (extractClientID_spec "localhost").1 (by decide) (by decide)
  · exact (extractClientID_spec "1.2.3.4:8080").2.2 7 (by decide)

/-! ## Limiter construction: C8 -/

/-- C8 counterexample: `NewLimiter` with a non-nil store and a non-positive
cleanup interval does **not** yield an absent Limiter — it substitutes the
5-minute default and succeeds. -/
theorem newLimiter_nonpositive_interval_present :
    (NewLimiter (some storeW) 0).isSome = true ∧
    (NewLimiter (some storeW) (-1)).isSome = true := by
  constructor
  · simp [NewLimiter]
  · simp [NewLimiter]

/-- C8 (amended): `NewLimiter` yields no Limiter exactly when the store is
nil; a non-positive `cleanupInterval` is replaced (with a warning) by the
default 5 minutes (300 s), and a positive one is kept. -/
theorem newLimiter_spec (store : Option BucketStore) (ci : ℚ) :
    (store = none → NewLimiter store ci = none) ∧
    (∀ st, store = some st → (NewLimiter store ci).isSome = true) ∧
    (∀ st, store = some st → ci ≤ 0 →
        ∀ L, NewLimiter store ci = some L → L.cleanupInterval = 300) ∧
    (∀ st, store = some st → 0 < ci →
        ∀ L, NewLimiter store ci = some L → L.cleanupInterval = ci) := by
  refine ⟨?_, ?_, ?_, ?_⟩
  · intro h
    subst h
    rfl
  · intro st h
    subst h
    rfl
  · intro st h hle L hL
    subst h
    simp only [NewLimiter] at hL
    rw [← Option.some.inj hL]
    show (if ci ≤ 0 then (300 : ℚ) else ci) = 300
    rw [if_pos hle]
  · intro st h hlt L hL
    subst h
    simp only [NewLimiter] at hL
    rw [← Option.some.inj hL]
    show (if ci ≤ 0 then (300 : ℚ) else ci) = ci
    rw [if_neg (not_le.mpr hlt)]

/-- Witness for C8 (amended): interval `-2` is replaced by 300 s. -/
theorem newLimiter_spec_witness :
    ((-2 : ℚ) ≤ 0) ∧ Limiter.cleanupInterval ⟨storeW, 300⟩ = 300 := by
  refine ⟨by norm_num, ?_⟩
  exact (newLimiter_spec (some storeW) (-2)).2.2.1 storeW rfl (by norm_num)
    ⟨storeW, 300⟩ (by norm_num [NewLimiter])

end LoadBalancer
